import Mathlib

/-!
Verification of the r2con RCON client's protocol engine.

This file shallowly embeds the packet codec (`src/r2con-lib/src/rcon_packet.rs`),
the packet-write loop and the receive/reassembly loop of `RconClient::send`
(`src/r2con-lib/src/rcon.rs`), and proves the spec's claims about them.

Modelling conventions:
* byte buffers (`BytesMut`, `Vec<u8>`, `&[u8]`) are `List Nat` with each
  element a byte value;
* `i32` values are `Int`; reads/writes through little-endian byte encoding
  are explicit (`i32OfLe`, `i32ToLeBytes`), with wrap-around at `2^32`;
* fallible Rust code (`Result`) returns an explicit result inductive;
* arithmetic overflow that panics in the source (`packet_size - 10` below
  `i32::MIN` under overflow checks, and the out-of-bounds `Buf` advance it
  causes without them) is a distinct `panik` outcome;
* the random id drawn by `rand::thread_rng().gen::<i32>()` inside
  `Packet::new` is passed as an explicit argument, the single impure input.
-/

namespace R2con

/-- Little-endian value of a 4-byte list (the `u32` read underlying
`Buf::get_i32_le`). -/
def word32OfLe : List Nat → Nat
  | [a, b, c, d] => a + 256 * (b + 256 * (c + 256 * d))
  | _ => 0

/-- `Buf::get_i32_le`: read 4 little-endian bytes as a signed 32-bit value. -/
def i32OfLe (l : List Nat) : Int :=
  let n := word32OfLe l
  if n < 2 ^ 31 then (n : Int) else (n : Int) - 2 ^ 32

/-- `i32::to_le_bytes`: the 4 little-endian bytes of a signed 32-bit value
(two's complement). -/
def i32ToLeBytes (i : Int) : List Nat :=
  let n := (i % (2 ^ 32 : Int)).toNat
  [n % 256, n / 256 % 256, n / 256 ^ 2 % 256, n / 256 ^ 3 % 256]

/-- `PacketType` from `rcon_packet.rs`: `Response = 0`, `Command = 2`,
`Login = 3`, `Invalid = -2`. -/
inductive PacketType where
  | Response
  | Command
  | Login
  | Invalid
deriving DecidableEq

/-- The `#[repr(i32)]` discriminant of a `PacketType` (the `as i32` cast
used when serializing). -/
def PacketType.toI32 : PacketType → Int
  | .Response => 0
  | .Command => 2
  | .Login => 3
  | .Invalid => -2

/-- `PacketType::from_i32`: `0 => Response`, `2 => Command`, `3 => Login`,
anything else `Invalid`. -/
def PacketType.from_i32 (i : Int) : PacketType :=
  if i = 0 then .Response
  else if i = 2 then .Command
  else if i = 3 then .Login
  else .Invalid

/-- The `Packet` struct: declared `size`, `id`, type and raw body bytes. -/
structure Packet where
  size : Int
  id : Int
  p_type : PacketType
  body : List Nat
deriving DecidableEq

/-- `Packet::new(packet_type, payload)`. The source draws the id from
`thread_rng`; that draw is the explicit `id` argument here. The body is the
payload's bytes; `size = payload.len() + 1 + 9`, and the construction fails
(`i32::try_from` error) when that does not fit in an `i32`. -/
def Packet.new (packet_type : PacketType) (payload : List Nat) (id : Int) :
    Option Packet :=
  let payload_len := payload.length + 1
  if payload_len + 9 < 2 ^ 31 then
    some { size := payload_len + 9, id := id, p_type := packet_type, body := payload }
  else
    none

/-- `impl From<&Packet> for Vec<u8>`: `[size LE][id LE][type LE][body][0][0]`. -/
def Packet.serialize (value : Packet) : List Nat :=
  i32ToLeBytes value.size ++ i32ToLeBytes value.id ++
    i32ToLeBytes value.p_type.toI32 ++ value.body ++ [0, 0]

/-- Outcome of `Packet::deserialize(buf)`, together with the state the
caller's buffer is left in:
* `ok p rest` — `Ok(Some(p))`, buffer left holding `rest`;
* `incomplete rest` — `Ok(None)`, buffer left holding `rest`;
* `err rest` — `Err(_)` from a failed integer conversion, buffer left
  holding `rest`;
* `panik` — the source panics (overflow computing `packet_size - 10`, or
  the out-of-bounds `Buf` advance that wrap-around leads to). -/
inductive DeserResult where
  | ok (p : Packet) (rest : List Nat)
  | incomplete (rest : List Nat)
  | err (rest : List Nat)
  | panik
deriving DecidableEq

/-- `Packet::deserialize(buf: &mut BytesMut)`.

The source first checks `buf.len() > 4` (5 or more bytes, hence the 5-cons
pattern). It then reads `packet_size` with `get_i32_le`, which consumes the
front 4 bytes, so every later outcome leaves only `rest` in the buffer —
including `Ok(None)` when `packet_size` exceeds the bytes remaining.
`i32::try_from(buf_len)` fails for buffers of `2^31` or more remaining
bytes; `usize::try_from(packet_size - 10)` fails for negative values and the
subtraction itself panics below `i32::MIN`. On success the id, the type, the
`payload_size`-byte body, and the 2 terminator bytes (`get_u16`, unvalidated)
are consumed: `4 + packet_size` bytes in all. -/
def Packet.deserialize (buf : List Nat) : DeserResult :=
  match buf with
  | b0 :: b1 :: b2 :: b3 :: b4 :: tl =>
    let packet_size : Int := i32OfLe [b0, b1, b2, b3]
    let rest : List Nat := b4 :: tl
    if (2 ^ 31 : Nat) ≤ rest.length then .err rest
    else if packet_size ≤ (rest.length : Int) then
      if packet_size - 10 < -(2 ^ 31 : Int) then .panik
      else if packet_size - 10 < 0 then .err rest
      else
        let payload_size := (packet_size - 10).toNat
        let id := i32OfLe (rest.take 4)
        let p_type := PacketType.from_i32 (i32OfLe ((rest.drop 4).take 4))
        let payload := (rest.drop 8).take payload_size
        .ok { size := packet_size, id := id, p_type := p_type, body := payload }
          ((rest.drop 8).drop (payload_size + 2))
    else .incomplete rest
  | _ => .incomplete buf

/-- One outcome of a `stream.try_write(&bytes[bytes_written..])` call inside
`RconClient::send_packet`: `Ok(n)`, a `WouldBlock` error, or another I/O
error. -/
inductive WriteStep where
  | ok (n : Nat)
  | wouldBlock
  | ioErr
deriving DecidableEq

/-- How the write loop of `RconClient::send_packet` ends:
* `ok written` — the loop breaks and the function returns `Ok(())`;
  `written` is the value of `bytes_written` at the break;
* `connClosed` — `Ok(0)` from `try_write`: the source returns
  `Err(ConnectionClosedError)`;
* `ioError` — a non-`WouldBlock` I/O error is returned;
* `looping written` — the supplied outcomes are exhausted and the loop is
  still running (still waiting on the socket). -/
inductive WriteResult where
  | ok (written : Nat)
  | connClosed
  | ioError
  | looping (written : Nat)
deriving DecidableEq

/-- The write loop of `RconClient::send_packet`, over the sequence of
`try_write` outcomes the socket produces. `bytes_len` is the encoded
packet's length and `bytes_written` the loop counter: `Ok(0)` returns the
connection-closed error, `Ok(n)` adds to `bytes_written` and breaks once it
equals `bytes_len`, `WouldBlock` retries, and any other error propagates. -/
def writeLoop (bytes_len : Nat) (bytes_written : Nat) :
    List WriteStep → WriteResult
  | [] => .looping bytes_written
  | .ok 0 :: _ => .connClosed
  | .ok (n + 1) :: steps =>
    if bytes_written + (n + 1) = bytes_len then .ok (bytes_written + (n + 1))
    else writeLoop bytes_len (bytes_written + (n + 1)) steps
  | .wouldBlock :: steps => writeLoop bytes_len bytes_written steps
  | .ioErr :: _ => .ioError

/-- Is a byte a UTF-8 continuation byte (`0x80..=0xBF`)? -/
def isCont (b : Nat) : Bool := 0x80 ≤ b && b ≤ 0xBF

/-- UTF-8 validity of a byte sequence, as `String::from_utf8` checks it
(RFC 3629: no overlong forms, no surrogates, nothing above `U+10FFFF`). -/
def utf8Valid : List Nat → Bool
  | [] => true
  | b :: rest =>
    if b ≤ 0x7F then utf8Valid rest
    else if b < 0xC2 then false
    else if b ≤ 0xDF then
      match rest with
      | c :: r => isCont c && utf8Valid r
      | [] => false
    else if b ≤ 0xEF then
      match rest with
      | c1 :: c2 :: r =>
        (if b = 0xE0 then 0xA0 ≤ c1 && c1 ≤ 0xBF
         else if b = 0xED then 0x80 ≤ c1 && c1 ≤ 0x9F
         else isCont c1) && isCont c2 && utf8Valid r
      | _ => false
    else if b ≤ 0xF4 then
      match rest with
      | c1 :: c2 :: c3 :: r =>
        (if b = 0xF0 then 0x90 ≤ c1 && c1 ≤ 0xBF
         else if b = 0xF4 then 0x80 ≤ c1 && c1 ≤ 0x8F
         else isCont c1) && isCont c2 && isCont c3 && utf8Valid r
      | _ => false
    else false

/-- How the receive loop of `RconClient::send` ends, given the packets
parsed from the socket in receipt order:
* `authError` — a non-`Invalid` packet with id `-1` was seen: the source
  returns `Err(RconAuthError)`;
* `done bodies` — a non-`Invalid` packet with the dummy packet's id ended
  the loop (`break 'outer`); `bodies` is `result_bytes`, the accumulated
  body bytes;
* `pending bodies` — the packet list is exhausted with no terminator seen:
  the source is still in its outer loop reading from the socket. -/
inductive SendOutcome where
  | authError
  | done (bodies : List Nat)
  | pending (bodies : List Nat)
deriving DecidableEq

/-- The packet-processing loop of `RconClient::send` (the inner
`while let Some(packet) = Packet::deserialize(..)` body), over the packets
received in order: `Invalid`-typed packets are skipped, a packet with id
`-1` aborts with the auth error, a packet with the dummy packet's id ends
the loop, and any other packet's body is appended to `acc`
(`result_bytes`). -/
def processPackets (dummyId : Int) : List Packet → List Nat → SendOutcome
  | [], acc => .pending acc
  | p :: rest, acc =>
    if p.p_type = .Invalid then processPackets dummyId rest acc
    else if p.id = -1 then .authError
    else if p.id = dummyId then .done acc
    else processPackets dummyId rest (acc ++ p.body)

/-- The errors `RconClient::send` can produce past the write phase, with
the peer address (`self.stream.peer_addr()`) the auth error carries. -/
inductive RconError (α : Type) where
  | authError (addr : α)
  | encodingError
deriving DecidableEq

/-- The tail of `RconClient::send` after both packets are written: process
the received packets; on the auth sentinel return `RconAuthError` with the
peer address, and on termination decode `result_bytes` with
`String::from_utf8` (modelled as UTF-8 validation returning the byte
sequence of the text). `none` means the loop has not terminated on these
packets (the source would keep reading from the socket). -/
def sendOutcome {α : Type} (addr : α) (dummyId : Int) (pkts : List Packet) :
    Option (Except (RconError α) (List Nat)) :=
  match processPackets dummyId pkts [] with
  | .authError => some (.error (.authError addr))
  | .done bodies =>
    if utf8Valid bodies then some (.ok bodies) else some (.error .encodingError)
  | .pending _ => none

/-- Modelled from the spec (claim C2's description of the result): the
concatenation, in receipt order, of the bodies of all non-`Invalid` packets
received before the packet that terminates the read loop — the first
non-`Invalid` packet whose id equals the dummy packet's id. -/
def specBodies (dummyId : Int) (pkts : List Packet) : List Nat :=
  (((pkts.takeWhile fun p =>
      !(decide (p.p_type ≠ PacketType.Invalid) && p.id == dummyId)).filter
    fun p => decide (p.p_type ≠ PacketType.Invalid)).map Packet.body).flatten

/-! ## General lemmas about the codec -/

/-- `PacketType.from_i32` inverts the `as i32` cast on every variant. -/
theorem from_i32_toI32 (t : PacketType) : PacketType.from_i32 t.toI32 = t := by
  cases t <;> rfl

/-- Every `i32` discriminant of a `PacketType` lies in the signed 32-bit
range. -/
theorem toI32_range (t : PacketType) :
    -(2 ^ 31 : Int) ≤ t.toI32 ∧ t.toI32 < 2 ^ 31 := by
  cases t <;> exact ⟨by decide, by decide⟩

/-- `i32ToLeBytes` always yields a 4-byte list. -/
theorem i32ToLeBytes_shape (i : Int) : ∃ a b c d, i32ToLeBytes i = [a, b, c, d] :=
  ⟨_, _, _, _, rfl⟩

/-- Reading back the little-endian bytes of an in-range `i32` recovers it. -/
theorem i32OfLe_i32ToLeBytes (i : Int) (h1 : -(2 ^ 31) ≤ i) (h2 : i < 2 ^ 31) :
    i32OfLe (i32ToLeBytes i) = i := by
  simp only [i32ToLeBytes, i32OfLe, word32OfLe]
  norm_num
  omega

/-- Decoding the wire bytes of a well-formed packet followed by any extra
bytes yields that packet and leaves exactly the extra bytes. -/
theorem deserialize_serialize_append (p : Packet) (extra : List Nat)
    (hsize : p.size = p.body.length + 10)
    (hbound : p.size + (extra.length : Int) < 2 ^ 31)
    (hid1 : -(2 ^ 31) ≤ p.id) (hid2 : p.id < 2 ^ 31) :
    Packet.deserialize (p.serialize ++ extra) = .ok p extra := by
  obtain ⟨s0, s1, s2, s3, hs⟩ := i32ToLeBytes_shape p.size
  obtain ⟨i0, i1, i2, i3, hi⟩ := i32ToLeBytes_shape p.id
  obtain ⟨t0, t1, t2, t3, ht⟩ := i32ToLeBytes_shape p.p_type.toI32
  have hsz1 : (0 : Int) ≤ p.size := by omega
  have hsz2 : p.size < 2 ^ 31 := by
    have : (0 : Int) ≤ (extra.length : Int) := Int.ofNat_nonneg _
    omega
  have hsback : i32OfLe [s0, s1, s2, s3] = p.size := by
    rw [← hs]; exact i32OfLe_i32ToLeBytes _ (by omega) hsz2
  have hiback : i32OfLe [i0, i1, i2, i3] = p.id := by
    rw [← hi]; exact i32OfLe_i32ToLeBytes _ hid1 hid2
  have htback : i32OfLe [t0, t1, t2, t3] = p.p_type.toI32 := by
    rw [← ht]
    exact i32OfLe_i32ToLeBytes _ (toI32_range p.p_type).1 (toI32_range p.p_type).2
  have hform : p.serialize ++ extra =
      s0 :: s1 :: s2 :: s3 :: i0 :: i1 :: i2 :: i3 :: t0 :: t1 :: t2 :: t3 ::
        (p.body ++ 0 :: 0 :: extra) := by
    simp [Packet.serialize, hs, hi, ht]
  rw [hform]
  rw [Packet.deserialize]
  simp only [hsback, hiback, htback]
  have hrestlen : (i0 :: i1 :: i2 :: i3 :: t0 :: t1 :: t2 :: t3 ::
      (p.body ++ 0 :: 0 :: extra)).length = p.body.length + 10 + extra.length := by
    simp; omega
  rw [hrestlen]
  have hc1 : ¬ ((2 ^ 31 : Nat) ≤ p.body.length + 10 + extra.length) := by
    omega
  have hc2 : p.size ≤ ((p.body.length + 10 + extra.length : Nat) : Int) := by
    push_cast
    omega
  have hc3 : ¬ (p.size - 10 < -(2 ^ 31 : Int)) := by omega
  have hc4 : ¬ (p.size - 10 < 0) := by omega
  rw [if_neg hc1, if_pos hc2, if_neg hc3, if_neg hc4]
  have htake4 : (i0 :: i1 :: i2 :: i3 :: t0 :: t1 :: t2 :: t3 ::
      (p.body ++ 0 :: 0 :: extra)).take 4 = [i0, i1, i2, i3] := rfl
  have hdrop4 : (i0 :: i1 :: i2 :: i3 :: t0 :: t1 :: t2 :: t3 ::
      (p.body ++ 0 :: 0 :: extra)).drop 4 = t0 :: t1 :: t2 :: t3 ::
      (p.body ++ 0 :: 0 :: extra) := rfl
  have hdrop8 : (i0 :: i1 :: i2 :: i3 :: t0 :: t1 :: t2 :: t3 ::
      (p.body ++ 0 :: 0 :: extra)).drop 8 = p.body ++ 0 :: 0 :: extra := rfl
  have hpsize : (p.size - 10).toNat = p.body.length := by omega
  have hpayload : (p.body ++ 0 :: 0 :: extra).take (p.size - 10).toNat = p.body := by
    rw [hpsize]
    exact List.take_left' rfl
  have hremain : (p.body ++ 0 :: 0 :: extra).drop ((p.size - 10).toNat + 2) = extra := by
    rw [hpsize]
    have hsplit : p.body ++ 0 :: 0 :: extra = (p.body ++ [0, 0]) ++ extra := by simp
    rw [hsplit]
    refine List.drop_left' ?_
    simp
  have htake4t : (t0 :: t1 :: t2 :: t3 :: (p.body ++ 0 :: 0 :: extra)).take 4 =
      [t0, t1, t2, t3] := rfl
  simp only [htake4, hdrop4, hdrop8, hiback, hpayload, hremain, htake4t]
  have hpkt : (⟨p.size, p.id, PacketType.from_i32 (i32OfLe [t0, t1, t2, t3]),
      p.body⟩ : Packet) = p := by
    rw [htback, from_i32_toI32]
  rw [hpkt]

/-- The encoded form of a packet is `size + id + type + body + 2` bytes. -/
theorem serialize_length (p : Packet) : p.serialize.length = p.body.length + 14 := by
  obtain ⟨s0, s1, s2, s3, hs⟩ := i32ToLeBytes_shape p.size
  obtain ⟨i0, i1, i2, i3, hi⟩ := i32ToLeBytes_shape p.id
  obtain ⟨t0, t1, t2, t3, ht⟩ := i32ToLeBytes_shape p.p_type.toI32
  simp [Packet.serialize, hs, hi, ht]

/-- Dropping `m + 4` elements skips four explicit cons cells. -/
theorem drop_add_four (m : Nat) (x0 x1 x2 x3 : Nat) (l : List Nat) :
    (x0 :: x1 :: x2 :: x3 :: l).drop (m + 4) = l.drop m := by
  rw [show m + 4 = (m + 3) + 1 from rfl, List.drop_succ_cons,
    show m + 3 = (m + 2) + 1 from rfl, List.drop_succ_cons,
    show m + 2 = (m + 1) + 1 from rfl, List.drop_succ_cons, List.drop_succ_cons]

/-- Inversion of a successful decode: the packet's declared size is
non-negative, the buffer held at least `4 + size` bytes, and exactly the
front `4 + size` bytes were consumed. -/
theorem deserialize_ok_inversion (buf : List Nat) (p : Packet) (rest : List Nat)
    (h : Packet.deserialize buf = .ok p rest) :
    0 ≤ p.size ∧ 4 + p.size.toNat ≤ buf.length ∧
      rest = buf.drop (4 + p.size.toNat) := by
  rcases buf with _ | ⟨b0, _ | ⟨b1, _ | ⟨b2, _ | ⟨b3, _ | ⟨b4, tl⟩⟩⟩⟩⟩
  · exact absurd h (by simp [Packet.deserialize])
  · exact absurd h (by simp [Packet.deserialize])
  · exact absurd h (by simp [Packet.deserialize])
  · exact absurd h (by simp [Packet.deserialize])
  · exact absurd h (by simp [Packet.deserialize])
  · simp only [Packet.deserialize] at h
    split_ifs at h with h1 h2 h3 h4
    injection h with hp hrest
    subst hp
    refine ⟨?_, ?_, ?_⟩
    · show (0 : Int) ≤ i32OfLe [b0, b1, b2, b3]
      omega
    · show 4 + (i32OfLe [b0, b1, b2, b3]).toNat ≤
        (b0 :: b1 :: b2 :: b3 :: b4 :: tl).length
      simp only [List.length_cons] at h2 ⊢
      omega
    · subst hrest
      show List.drop ((i32OfLe [b0, b1, b2, b3] - 10).toNat + 2)
          (List.drop 8 (b4 :: tl)) =
        (b0 :: b1 :: b2 :: b3 :: b4 :: tl).drop
          (4 + (i32OfLe [b0, b1, b2, b3]).toNat)
      rw [List.drop_drop,
        show 4 + (i32OfLe [b0, b1, b2, b3]).toNat =
          (i32OfLe [b0, b1, b2, b3]).toNat + 4 from by omega,
        drop_add_four]
      congr 1
      omega

/-- A declared size below 10 (with no `i32` overflow computing `size - 10`)
on a buffer of more than 4 bytes holding at least `size` bytes past the
size field makes `deserialize` fail, the 4 size bytes having been
consumed. -/
theorem deserialize_small_size (buf : List Nat) (s : Int)
    (h5 : 4 < buf.length)
    (hs : s = i32OfLe (buf.take 4))
    (hlt : s < 10)
    (hge : -(2 ^ 31) + 10 ≤ s)
    (havail : s ≤ (buf.length : Int) - 4) :
    Packet.deserialize buf = .err (buf.drop 4) := by
  rcases buf with _ | ⟨b0, _ | ⟨b1, _ | ⟨b2, _ | ⟨b3, _ | ⟨b4, tl⟩⟩⟩⟩⟩
  · simp at h5
  · simp at h5
  · simp at h5
  · simp at h5
  · simp at h5
  · rw [show (b0 :: b1 :: b2 :: b3 :: b4 :: tl).take 4 = [b0, b1, b2, b3] from rfl]
      at hs
    simp only [Packet.deserialize]
    by_cases h1 : (2 ^ 31 : Nat) ≤ (b4 :: tl).length
    · rw [if_pos h1]
      rfl
    · have hc2 : i32OfLe [b0, b1, b2, b3] ≤ ((b4 :: tl).length : Int) := by
        simp only [List.length_cons] at havail ⊢
        push_cast at havail ⊢
        omega
      have hc3 : ¬ (i32OfLe [b0, b1, b2, b3] - 10 < -(2 ^ 31 : Int)) := by omega
      have hc4 : i32OfLe [b0, b1, b2, b3] - 10 < 0 := by omega
      rw [if_neg h1, if_pos hc2, if_neg hc3, if_pos hc4]
      rfl

/-! ## General lemmas about the session loops -/

/-- An `Invalid`-typed packet contributes nothing to the spec-side
concatenation. -/
theorem specBodies_cons_invalid (dummyId : Int) (p : Packet) (rest : List Packet)
    (h : p.p_type = .Invalid) :
    specBodies dummyId (p :: rest) = specBodies dummyId rest := by
  simp [specBodies, List.takeWhile_cons, h]

/-- The first non-`Invalid` packet carrying the dummy id ends the spec-side
concatenation. -/
theorem specBodies_cons_stop (dummyId : Int) (p : Packet) (rest : List Packet)
    (h1 : p.p_type ≠ .Invalid) (h2 : p.id = dummyId) :
    specBodies dummyId (p :: rest) = [] := by
  simp [specBodies, List.takeWhile_cons, h1, h2]

/-- Any other non-`Invalid` packet contributes its body, in order. -/
theorem specBodies_cons_acc (dummyId : Int) (p : Packet) (rest : List Packet)
    (h1 : p.p_type ≠ .Invalid) (h2 : p.id ≠ dummyId) :
    specBodies dummyId (p :: rest) = p.body ++ specBodies dummyId rest := by
  simp [specBodies, List.takeWhile_cons, h1, h2]

/-- When the receive loop terminates normally, the accumulated bytes are
the starting accumulator followed by the spec-side concatenation. -/
theorem processPackets_done (dummyId : Int) :
    ∀ (pkts : List Packet) (acc bs : List Nat),
      processPackets dummyId pkts acc = .done bs →
      bs = acc ++ specBodies dummyId pkts := by
  intro pkts
  induction pkts with
  | nil =>
    intro acc bs h
    simp [processPackets] at h
  | cons p rest ih =>
    intro acc bs h
    simp only [processPackets] at h
    by_cases hp : p.p_type = .Invalid
    · rw [if_pos hp] at h
      rw [specBodies_cons_invalid dummyId p rest hp]
      exact ih acc bs h
    · rw [if_neg hp] at h
      by_cases h1 : p.id = -1
      · rw [if_pos h1] at h
        cases h
      · rw [if_neg h1] at h
        by_cases h2 : p.id = dummyId
        · rw [if_pos h2] at h
          injection h with hbs
          rw [specBodies_cons_stop dummyId p rest hp h2, ← hbs, List.append_nil]
        · rw [if_neg h2] at h
          rw [specBodies_cons_acc dummyId p rest hp h2, ← List.append_assoc]
          exact ih (acc ++ p.body) bs h

/-- A non-`Invalid` packet with id `-1`, with no dummy-id packet anywhere
before it, drives the receive loop to the auth error whatever else the
stream holds. -/
theorem processPackets_auth (dummyId : Int) :
    ∀ (pre : List Packet) (q : Packet) (post : List Packet) (acc : List Nat),
      q.p_type ≠ .Invalid → q.id = -1 → (∀ r ∈ pre, r.id ≠ dummyId) →
      processPackets dummyId (pre ++ q :: post) acc = .authError := by
  intro pre
  induction pre with
  | nil =>
    intro q post acc hq1 hq2 _
    simp [processPackets, hq1, hq2]
  | cons r pre ih =>
    intro q post acc hq1 hq2 hpre
    simp only [List.cons_append, processPackets]
    by_cases hr : r.p_type = .Invalid
    · rw [if_pos hr]
      exact ih q post acc hq1 hq2 fun x hx => hpre x (List.mem_cons_of_mem r hx)
    · rw [if_neg hr]
      by_cases hr1 : r.id = -1
      · rw [if_pos hr1]
      · rw [if_neg hr1, if_neg (hpre r (List.mem_cons_self r pre))]
        exact ih q post (acc ++ r.body) hq1 hq2
          fun x hx => hpre x (List.mem_cons_of_mem r hx)

/-- The write loop returns `Ok(())` only with `bytes_written` equal to the
full encoded length. -/
theorem writeLoop_ok_full (bytes_len : Nat) :
    ∀ (steps : List WriteStep) (bytes_written w : Nat),
      writeLoop bytes_len bytes_written steps = .ok w → w = bytes_len := by
  intro steps
  induction steps with
  | nil =>
    intro bw w h
    cases h
  | cons s steps ih =>
    intro bw w h
    cases s with
    | ok n =>
      cases n with
      | zero => cases h
      | succ m =>
        simp only [writeLoop] at h
        split_ifs at h with heq
        · injection h with hw
          omega
        · exact ih _ _ h
    | wouldBlock =>
      simp only [writeLoop] at h
      exact ih _ _ h
    | ioErr => cases h

/-! ## The claims -/

/-- C1: the claim says a decode attempt on a strict prefix of a valid
encoded packet yields `Incomplete` and leaves the buffer exactly as it was.
The source instead reads the size field with `get_i32_le` — which consumes
the front 4 bytes of the `BytesMut` — before discovering that too few bytes
are buffered, and then returns `Ok(None)` without restoring them. Witness:
the first 6 bytes of the valid encoding of a size-11 packet (type
`Response`, id 0, body `"a"`) decode to `Incomplete` with only 2 bytes — the
original buffer minus its 4-byte size field — left in the buffer. This
breaks the read loop in `RconClient::send`, which appends further socket
bytes to the same buffer and re-parses expecting the frame to be intact. -/
theorem c1_deserialize_consumes_on_partial :
    (Packet.serialize ⟨11, 0, .Response, [97]⟩).take 6 = [11, 0, 0, 0, 0, 0] ∧
    Packet.deserialize [11, 0, 0, 0, 0, 0] = .incomplete [0, 0] := by decide

/-- C2: for every successful send exchange, the returned text is the UTF-8
decoding of the concatenation, in receipt order, of the bodies of all
non-`Invalid` packets received before the (first non-`Invalid`) packet whose
id equals the dummy packet's id, the dummy echo's own body excluded; and if
the accumulated bytes are not valid UTF-8, `send` fails with the encoding
error. -/
theorem c2_send_reassembly (α : Type) :
    (∀ (addr : α) (dummyId : Int) (pkts : List Packet) (bs : List Nat),
        sendOutcome addr dummyId pkts = some (.ok bs) →
        bs = specBodies dummyId pkts ∧ utf8Valid bs = true) ∧
    (∀ (addr : α) (dummyId : Int) (pkts : List Packet) (cs : List Nat),
        processPackets dummyId pkts [] = .done cs → utf8Valid cs = false →
        sendOutcome addr dummyId pkts = some (.error .encodingError)) := by
  constructor
  · intro addr dummyId pkts bs h
    cases hp : processPackets dummyId pkts [] with
    | authError => simp [sendOutcome, hp] at h
    | done bodies =>
      simp only [sendOutcome, hp] at h
      by_cases hv : utf8Valid bodies
      · rw [if_pos hv] at h
        simp only [Option.some.injEq, Except.ok.injEq] at h
        subst h
        exact ⟨by simpa using processPackets_done dummyId pkts [] bodies hp, hv⟩
      · rw [if_neg hv] at h
        simp at h
    | pending acc => simp [sendOutcome, hp] at h
  · intro addr dummyId pkts cs h hv
    simp [sendOutcome, h, hv]

/-- C2 witness: bodies `"foo"` then `"bar"` followed by the dummy echo
(id 9) reassemble to `"foobar"`. -/
theorem c2_send_reassembly_witness :
    [102, 111, 111, 98, 97, 114] =
        specBodies 9 [⟨13, 7, .Response, [102, 111, 111]⟩,
          ⟨13, 7, .Response, [98, 97, 114]⟩, ⟨10, 9, .Response, []⟩] ∧
      utf8Valid [102, 111, 111, 98, 97, 114] = true :=
  (c2_send_reassembly Nat).1 0 9
    [⟨13, 7, .Response, [102, 111, 111]⟩, ⟨13, 7, .Response, [98, 97, 114]⟩,
      ⟨10, 9, .Response, []⟩] [102, 111, 111, 98, 97, 114] rfl

/-- C3: for every type, id and body, decoding the serialized bytes of a
packet whose size field is `len(body) + 10` yields exactly one packet (the
remainder buffer is empty) with the same type, id and body, and its size
field is `len(body) + 10`. -/
theorem c3_encode_decode_roundtrip (t : PacketType) (id : Int) (body : List Nat)
    (hid1 : -(2 ^ 31) ≤ id) (hid2 : id < 2 ^ 31)
    (hsize : (body.length : Int) + 10 < 2 ^ 31) :
    ∃ q : Packet,
      Packet.deserialize
          (Packet.serialize ⟨(body.length : Int) + 10, id, t, body⟩) = .ok q [] ∧
      q.p_type = t ∧ q.id = id ∧ q.body = body ∧
      q.size = (body.length : Int) + 10 := by
  refine ⟨⟨(body.length : Int) + 10, id, t, body⟩, ?_, rfl, rfl, rfl, rfl⟩
  have h := deserialize_serialize_append ⟨(body.length : Int) + 10, id, t, body⟩ []
    rfl (by simpa using hsize) hid1 hid2
  simpa using h

/-- C3 witness: a `Command` packet with id 5 and body `"hi"` round-trips. -/
theorem c3_encode_decode_roundtrip_witness :
    ∃ q : Packet,
      Packet.deserialize (Packet.serialize ⟨12, 5, .Command, [104, 105]⟩) =
        .ok q [] ∧
      q.p_type = .Command ∧ q.id = 5 ∧ q.body = [104, 105] ∧ q.size = 12 := by
  simpa using c3_encode_decode_roundtrip .Command 5 [104, 105]
    (by decide) (by decide) (by decide)

/-- C4 counterexample: the buffer `[5, 0, 0, 0]` declares size 5 (below the
minimum 10) in its first 4 bytes, yet `deserialize` yields `Ok(None)`
(`Incomplete`), not an error, because the `buf.len() > 4` guard fails before
the size is ever inspected. The claim's "for every buffer whose first 4
bytes declare a size less than 10" is therefore false as stated. -/
theorem c4_small_size_incomplete_counterexample :
    Packet.deserialize [5, 0, 0, 0] = .incomplete [5, 0, 0, 0] := by decide

/-- C4 (amended): a buffer whose first 4 bytes declare a size below 10
yields the error outcome — provided more than 4 bytes are buffered, the
declared size does not exceed the bytes available after the size field
(otherwise the availability check yields `Incomplete` first), and the size
is at least `-2^31 + 10` (below that, `packet_size - 10` overflows `i32` and
the source panics instead). -/
theorem c4_malformed_size_rejected (buf : List Nat) (s : Int)
    (h5 : 4 < buf.length)
    (hs : s = i32OfLe (buf.take 4))
    (hlt : s < 10)
    (hge : -(2 ^ 31) + 10 ≤ s)
    (havail : s ≤ (buf.length : Int) - 4) :
    Packet.deserialize buf = .err (buf.drop 4) :=
  deserialize_small_size buf s h5 hs hlt hge havail

/-- C4 witness: a 9-byte buffer declaring size 5 is rejected as an error. -/
theorem c4_malformed_size_rejected_witness :
    Packet.deserialize [5, 0, 0, 0, 1, 2, 3, 4, 5] = .err [1, 2, 3, 4, 5] :=
  c4_malformed_size_rejected [5, 0, 0, 0, 1, 2, 3, 4, 5] 5 (by decide) (by decide)
    (by decide) (by decide) (by decide)

/-- C5: a received stream holding a non-`Invalid` packet with id `-1`
before any packet carrying the dummy packet's id makes the exchange fail
with the auth error carrying the peer address, regardless of what other
packets are present. -/
theorem c5_auth_detection (α : Type) (addr : α) (dummyId : Int)
    (pre : List Packet) (q : Packet) (post : List Packet)
    (hq1 : q.p_type ≠ .Invalid) (hq2 : q.id = -1)
    (hpre : ∀ r ∈ pre, r.id ≠ dummyId) :
    sendOutcome addr dummyId (pre ++ q :: post) =
      some (.error (.authError addr)) := by
  simp [sendOutcome, processPackets_auth dummyId pre q post [] hq1 hq2 hpre]

/-- C5 witness: an `Invalid` packet and a normal response precede the id
`-1` packet; a dummy-id packet afterwards does not prevent the auth
error. -/
theorem c5_auth_detection_witness :
    sendOutcome (0 : Nat) 9
        [⟨10, 3, .Invalid, [1]⟩, ⟨10, 4, .Response, [97]⟩,
          ⟨10, -1, .Response, []⟩, ⟨10, 9, .Response, []⟩] =
      some (.error (.authError 0)) :=
  c5_auth_detection Nat 0 9 [⟨10, 3, .Invalid, [1]⟩, ⟨10, 4, .Response, [97]⟩]
    ⟨10, -1, .Response, []⟩ [⟨10, 9, .Response, []⟩]
    (by decide) (by decide) (by decide)

/-- C6 counterexample: the claim says a write call reporting 0 bytes
written is not treated as an error and the loop simply retries. In the
source the `Ok(0)` match arm returns `Err(ConnectionClosedError)`
immediately: on a 15-byte encoded packet with a first `try_write` returning
0, the loop ends in the connection-closed error rather than retrying. -/
theorem c6_zero_write_counterexample :
    writeLoop 15 0 [WriteStep.ok 0] = .connClosed := by decide

/-- C6 (amended): a zero-byte write is treated as a connection-closed
error; apart from that, `WouldBlock` and short writes retry, and the
function returns successfully only once `bytes_written` equals the full
encoded length. -/
theorem c6_zero_write_is_error :
    (∀ (bytes_len bytes_written : Nat) (steps : List WriteStep),
        writeLoop bytes_len bytes_written (WriteStep.ok 0 :: steps) =
          .connClosed) ∧
    (∀ (bytes_len : Nat) (steps : List WriteStep) (bytes_written w : Nat),
        writeLoop bytes_len bytes_written steps = .ok w → w = bytes_len) :=
  ⟨fun _ _ _ => rfl,
    fun bytes_len steps bw w h => writeLoop_ok_full bytes_len steps bw w h⟩

/-- C6 witness: a zero write closes mid-transfer, and a 10-byte write, a
`WouldBlock` retry and a 5-byte write drain a 15-byte packet exactly. -/
theorem c6_zero_write_is_error_witness :
    writeLoop 14 2 [WriteStep.ok 0] = .connClosed ∧ (15 : Nat) = 15 :=
  ⟨c6_zero_write_is_error.1 14 2 [],
    c6_zero_write_is_error.2 15 [.ok 10, .wouldBlock, .ok 5] 0 15 (by decide)⟩

/-- C7: packet construction is deterministic given the supplied id (the
one random input, drawn by the caller of the embedding): two constructions
from the same type, payload and id agree on every field and serialize to
identical bytes, and the drawn id influences nothing but the id field. -/
theorem c7_encode_deterministic (t : PacketType) (payload : List Nat)
    (id1 id2 : Int) (p1 p2 : Packet)
    (h1 : Packet.new t payload id1 = some p1)
    (h2 : Packet.new t payload id2 = some p2) :
    p1.size = p2.size ∧ p1.p_type = p2.p_type ∧ p1.body = p2.body ∧
      p1.id = id1 ∧ p2.id = id2 ∧
      (id1 = id2 → p1 = p2 ∧ p1.serialize = p2.serialize) := by
  simp only [Packet.new] at h1 h2
  split_ifs at h1 h2 with hc
  injection h1 with e1
  injection h2 with e2
  subst e1
  subst e2
  refine ⟨rfl, rfl, rfl, rfl, rfl, ?_⟩
  intro h
  subst h
  exact ⟨rfl, rfl⟩

/-- C7 witness: two `Login` constructions with payload `"p"` and id 3
produce the identical packet. -/
theorem c7_encode_deterministic_witness :
    (11 : Int) = 11 ∧ PacketType.Login = PacketType.Login ∧
      ([112] : List Nat) = [112] ∧ (3 : Int) = 3 ∧ (3 : Int) = 3 ∧
      ((3 : Int) = 3 →
        (⟨11, 3, .Login, [112]⟩ : Packet) = ⟨11, 3, .Login, [112]⟩ ∧
          Packet.serialize ⟨11, 3, .Login, [112]⟩ =
            Packet.serialize ⟨11, 3, .Login, [112]⟩) :=
  c7_encode_deterministic .Login [112] 3 3 ⟨11, 3, .Login, [112]⟩
    ⟨11, 3, .Login, [112]⟩ (by decide) (by decide)

/-- C8: a successful decode removes exactly `4 + size` bytes from the front
of the buffer (terminator bytes consumed, never validated), and two valid
encoded packets concatenated into one buffer decode in order over two
calls, leaving the buffer empty. -/
theorem c8_exact_consumption :
    (∀ (buf : List Nat) (p : Packet) (rest : List Nat),
        Packet.deserialize buf = .ok p rest →
        0 ≤ p.size ∧ 4 + p.size.toNat ≤ buf.length ∧
          rest = buf.drop (4 + p.size.toNat)) ∧
    (∀ p1 p2 : Packet,
        p1.size = (p1.body.length : Int) + 10 →
        p2.size = (p2.body.length : Int) + 10 →
        p1.size + p2.size + 4 < 2 ^ 31 →
        -(2 ^ 31) ≤ p1.id → p1.id < 2 ^ 31 → -(2 ^ 31) ≤ p2.id → p2.id < 2 ^ 31 →
        Packet.deserialize (p1.serialize ++ p2.serialize) = .ok p1 p2.serialize ∧
          Packet.deserialize p2.serialize = .ok p2 []) := by
  constructor
  · exact deserialize_ok_inversion
  · intro p1 p2 hs1 hs2 hb hi1 hi2 hi3 hi4
    constructor
    · refine deserialize_serialize_append p1 p2.serialize hs1 ?_ hi1 hi2
      rw [serialize_length]
      push_cast
      omega
    · have h := deserialize_serialize_append p2 [] hs2 ?_ hi3 hi4
      · simpa using h
      · simp only [List.length_nil, Nat.cast_zero, add_zero]
        omega

/-- C8 witness: two size-11 packets back to back decode in order, the
second decode draining the buffer; the first decode consumes exactly
`4 + 11` of the 30 buffered bytes. -/
theorem c8_exact_consumption_witness :
    (Packet.deserialize (Packet.serialize ⟨11, 1, .Response, [97]⟩ ++
          Packet.serialize ⟨11, 2, .Command, [98]⟩) =
        .ok ⟨11, 1, .Response, [97]⟩ (Packet.serialize ⟨11, 2, .Command, [98]⟩) ∧
      Packet.deserialize (Packet.serialize ⟨11, 2, .Command, [98]⟩) =
        .ok ⟨11, 2, .Command, [98]⟩ []) ∧
    (0 ≤ (11 : Int) ∧
      4 + (11 : Int).toNat ≤ (Packet.serialize ⟨11, 1, .Response, [97]⟩).length ∧
      ([] : List Nat) =
        (Packet.serialize ⟨11, 1, .Response, [97]⟩).drop (4 + (11 : Int).toNat)) :=
  ⟨c8_exact_consumption.2 ⟨11, 1, .Response, [97]⟩ ⟨11, 2, .Command, [98]⟩
      (by decide) (by decide) (by decide) (by decide) (by decide) (by decide)
      (by decide),
    c8_exact_consumption.1 (Packet.serialize ⟨11, 1, .Response, [97]⟩)
      ⟨11, 1, .Response, [97]⟩ [] (by decide)⟩

/-- C9: with 4 or fewer bytes buffered, `deserialize` returns `Ok(None)`
without consuming anything — even when the 4-byte size field is fully
present and declares a malformed size — because the `buf.len() > 4` guard
is strict. -/
theorem c9_short_buffer_incomplete (buf : List Nat) (h : buf.length ≤ 4) :
    Packet.deserialize buf = .incomplete buf := by
  rcases buf with _ | ⟨b0, _ | ⟨b1, _ | ⟨b2, _ | ⟨b3, _ | ⟨b4, tl⟩⟩⟩⟩⟩
  · rfl
  · rfl
  · rfl
  · rfl
  · rfl
  · simp only [List.length_cons] at h
    omega

/-- C9 witness: the complete 4-byte size field declaring the malformed
size 9 still yields `Incomplete` with the buffer untouched. -/
theorem c9_short_buffer_incomplete_witness :
    Packet.deserialize [9, 0, 0, 0] = .incomplete [9, 0, 0, 0] :=
  c9_short_buffer_incomplete [9, 0, 0, 0] (by decide)

/-- C10 counterexample: the buffer `[0, 0, 0, 128, 0]` has more than 4
bytes and its first 4 bytes declare size `-2^31` — below 10 and not above
the bytes available — yet the source does not return an error: computing
`packet_size - 10` overflows `i32` (a panic under overflow checks; with
wrap-around the subsequent `get_i32_le` advances past the single remaining
byte and panics inside `bytes`). The claim's "for every buffer … returns an
error" is therefore false at this input. -/
theorem c10_overflow_panics_counterexample :
    Packet.deserialize [0, 0, 0, 128, 0] = .panik := by decide

/-- C10 (amended): for every buffer of more than 4 bytes whose declared
size is below 10 but at least `-2^31 + 10` (so `size - 10` does not
overflow `i32`) and does not exceed the bytes available, `deserialize`
returns an error having consumed exactly the 4-byte size field, the
remaining bytes left in the buffer. -/
theorem c10_err_after_four_bytes (buf : List Nat) (s : Int)
    (h5 : 4 < buf.length)
    (hs : s = i32OfLe (buf.take 4))
    (hlt : s < 10)
    (hge : -(2 ^ 31) + 10 ≤ s)
    (havail : s ≤ (buf.length : Int) - 4) :
    ∃ r, Packet.deserialize buf = .err r ∧ r = buf.drop 4 ∧
      r.length + 4 = buf.length := by
  refine ⟨buf.drop 4, deserialize_small_size buf s h5 hs hlt hge havail, rfl, ?_⟩
  rw [List.length_drop]
  omega

/-- C10 witness: a 5-byte buffer declaring size `-5` errors out with only
the 4 size bytes consumed. -/
theorem c10_err_after_four_bytes_witness :
    ∃ r, Packet.deserialize [251, 255, 255, 255, 9] = .err r ∧
      r = List.drop 4 [251, 255, 255, 255, 9] ∧
      r.length + 4 = List.length [251, 255, 255, 255, 9] :=
  c10_err_after_four_bytes [251, 255, 255, 255, 9] (-5) (by decide) (by decide)
    (by decide) (by decide) (by decide)

end R2con
